import Mathlib

/-!
Verification of the Pixoo64 repository (simulator.py and pixoo.py) against its
natural-language specification.  The receiver-side reassembly state machine,
the playback tick, the pixel buffer, the rasterization primitives and the
animation encoder are embedded as executable Lean definitions translated
directly from the Python source; the claims are settled as theorems about
those definitions.
-/

/-! ## Receiver side: `simulator.py`

Frames travel as raw byte strings; `np.frombuffer(..., uint8).reshape((64,64,3))`
preserves the byte content and succeeds exactly when the payload holds
64*64*3 bytes, so a frame is modelled as its byte list. -/

/-- State of `AnimationManager` (simulator.py lines 31-37). -/
structure SimState where
  current_animation : List (List Nat)
  next_animation : List (List Nat)
  current_frame : Nat
  frame_delay : Int
  receiving_frames : Bool
deriving DecidableEq

/-- The state built by `AnimationManager.__init__`. -/
def SimState.init : SimState :=
  { current_animation := [], next_animation := [], current_frame := 0
    frame_delay := 100, receiving_frames := false }

/-- `AnimationManager.start_new_animation` (lines 39-42). -/
def start_new_animation (s : SimState) : SimState :=
  { s with receiving_frames := true, next_animation := [] }

/-- `AnimationManager.add_frame` (lines 44-51). -/
def add_frame (s : SimState) (frame_data : List Nat) : SimState :=
  { s with next_animation := s.next_animation ++ [frame_data] }

/-- `AnimationManager.finalize_animation` (lines 53-57).  Note that
`next_animation` is not cleared: Python aliases the same list object. -/
def finalize_animation (s : SimState) : SimState :=
  { s with current_frame := 0, current_animation := s.next_animation
           receiving_frames := false }

/-- `AnimationManager.get_current_frame` (lines 59-73): returns `none` when no
animation is published or while receiving; an index out of range resets the
frame pointer to 0 and returns `none`. -/
def get_current_frame (s : SimState) : Option (List Nat) × SimState :=
  if s.current_animation.isEmpty || s.receiving_frames then (none, s)
  else if h : s.current_frame < s.current_animation.length then
    (some (s.current_animation.get ⟨s.current_frame, h⟩), s)
  else (none, { s with current_frame := 0 })

/-- `AnimationManager.advance_frame` (lines 75-78). -/
def advance_frame (s : SimState) : SimState :=
  if s.current_animation.isEmpty then s
  else { s with current_frame := (s.current_frame + 1) % s.current_animation.length }

/-- One render tick of `Pixoo64Simulator.run_display` (lines 209-215), taken at
an instant where the frame-delay deadline has elapsed: read the current frame
and, only when one is available, render it and advance the pointer. -/
def display_tick (s : SimState) : Option (List Nat) × SimState :=
  match get_current_frame s with
  | (some fr, s1) => (some fr, advance_frame s1)
  | (none, s1) => (none, s1)

/-- Fields of a `Draw/SendHttpGif` request as read by `_handle_send_gif` via
`data.get(...)`: `none` models an absent JSON field.  `PicData` carries the
decoded payload bytes (the handler base64-decodes string payloads; both the
`str` and `bytes` branches yield the same byte content). -/
structure GifMsg where
  PicID : Option Int := none
  PicNum : Option Int := none
  PicOffset : Option Int := none
  PicSpeed : Option Int := none
  PicData : Option (List Nat) := none
deriving DecidableEq

/-- Outcome of `_handle_send_gif`: normal return with a frame accepted, early
return on a missing `PicData`, or a `ValueError` escaping from
`reshape((64,64,3))` on a payload whose length is not 64*64*3. -/
inductive GifResult where
  | ok : GifResult
  | noData : GifResult
  | badPayload : GifResult
deriving DecidableEq

/-- `Pixoo64Simulator._handle_send_gif` (simulator.py lines 161-197).  The
frame delay is overwritten first (line 171); the payload is decoded and
reshaped (raising on a bad length) before the offset-0 and final-offset
checks run. -/
def handleSendGif (s : SimState) (m : GifMsg) : SimState × GifResult :=
  let pic_offset := m.PicOffset.getD 0
  let pic_num := m.PicNum.getD 1
  let s := { s with frame_delay := m.PicSpeed.getD 100 }
  match m.PicData with
  | none => (s, GifResult.noData)
  | some frame_data =>
    if frame_data.length = 64 * 64 * 3 then
      let s := if pic_offset = 0 then start_new_animation s else s
      let s := add_frame s frame_data
      if pic_offset = pic_num - 1 then (finalize_animation s, GifResult.ok)
      else (s, GifResult.ok)
    else (s, GifResult.badPayload)

/-- `Pixoo64Simulator.handle_post` (lines 137-159), reduced to its state and
HTTP-status effect: a `Draw/SendHttpGif` command is dispatched to
`_handle_send_gif`; an exception there (the bad-payload reshape) is caught
and answered with status 500, every other path with status 200. -/
def handle_post (s : SimState) (command : Option String) (m : GifMsg) :
    SimState × Nat :=
  if command = some "Draw/SendHttpGif" then
    match handleSendGif s m with
    | (s1, GifResult.badPayload) => (s1, 500)
    | (s1, _) => (s1, 200)
  else (s, 200)

/-! ## Sender side: `pixoo.py`

The internal frame buffer is a 64x64 RGB PIL image; it is modelled as a
function from integer coordinates to colors (only coordinates in
`[0,64) x [0,64)` are ever written, which the theorems make explicit). -/

/-- An RGB color triple. -/
abbrev Color := Nat × Nat × Nat

/-- The internal frame buffer of `DivoomPixoo64` (`self._buffer`), addressed
as `b x y`. -/
abbrev Buffer := Int → Int → Color

/-- `Image.new('RGB', (64, 64), color)` as used by `_init_buffer`. -/
def buffer_new (c : Color) : Buffer := fun _ _ => c

/-- `self._buffer.putpixel((x, y), color)`. -/
def putpixel (b : Buffer) (x y : Int) (c : Color) : Buffer :=
  fun p q => if p = x ∧ q = y then c else b p q

/-- `DivoomPixoo64.set_pixel` (pixoo.py lines 88-103): writes the pixel when
both coordinates lie in `[0, buffer_width)` with `buffer_width = 64`, and
raises `ValueError` otherwise. -/
def set_pixel (b : Buffer) (x y : Int) (c : Color) : Except String Buffer :=
  if 0 ≤ x ∧ x < 64 ∧ 0 ≤ y ∧ y < 64 then Except.ok (putpixel b x y c)
  else Except.error "Pixel coordinates out of bounds"

/-- The guarded write pattern
`if 0 <= px < self.buffer_width and 0 <= py < self.buffer_width:
self.set_pixel(px, py, color)` used by `draw_circle` and `draw_rectangle`. -/
def guardedSet (b : Buffer) (x y : Int) (c : Color) : Except String Buffer :=
  if 0 ≤ x ∧ x < 64 ∧ 0 ≤ y ∧ y < 64 then set_pixel b x y c
  else Except.ok b

/-- Python `range(a, b)` over integers. -/
def intRange (a b : Int) : List Int :=
  (List.range (b - a).toNat).map (fun i : Nat => a + (i : Int))

/-! ### `draw_line` (pixoo.py lines 280-317)

Bresenham's algorithm.  The `dx > dy` branch steps `x` by `sx` once per
iteration of `while x != x1`, so that loop runs exactly `dx` iterations;
the loop is embedded with `dx` as structural fuel (the final `set_pixel`
after the loop is the fuel-0 case).  The `else` branch is symmetric in `y`
with `dy` iterations. -/

/-- The `dx > dy` loop of `draw_line`: the list of points passed to
`set_pixel`, in call order.  Fuel `n` counts the remaining iterations of
`while x != x1`, i.e. `|x1 - x|`. -/
def bresLoopX (sx sy : Int) (dx dy : Nat) : Nat → Int → Int → Int → List (Int × Int)
  | 0, x, y, _ => [(x, y)]
  | Nat.succ n, x, y, err =>
    (x, y) ::
      (let e := err - (dy : Int)
       if e < 0 then bresLoopX sx sy dx dy n (x + sx) (y + sy) (e + (dx : Int))
       else bresLoopX sx sy dx dy n (x + sx) y e)

/-- The `else` (`dy >= dx`) loop of `draw_line`, stepping `y` by `sy` with
fuel `|y1 - y|`. -/
def bresLoopY (sx sy : Int) (dx dy : Nat) : Nat → Int → Int → Int → List (Int × Int)
  | 0, x, y, _ => [(x, y)]
  | Nat.succ n, x, y, err =>
    (x, y) ::
      (let e := err - (dx : Int)
       if e < 0 then bresLoopY sx sy dx dy n (x + sx) (y + sy) (e + (dy : Int))
       else bresLoopY sx sy dx dy n x (y + sy) e)

/-- The sequence of coordinates `draw_line` passes to `set_pixel`, in call
order (`dx = abs(x1-x0)`, `dy = abs(y1-y0)`, `err = dx // 2` resp. `dy // 2`). -/
def draw_line_points (x0 y0 x1 y1 : Int) : List (Int × Int) :=
  let dx := (x1 - x0).natAbs
  let dy := (y1 - y0).natAbs
  let sx : Int := if x0 < x1 then 1 else -1
  let sy : Int := if y0 < y1 then 1 else -1
  if dy < dx then bresLoopX sx sy dx dy dx x0 y0 ((dx / 2 : Nat) : Int)
  else bresLoopY sx sy dx dy dy x0 y0 ((dy / 2 : Nat) : Int)

/-- `DivoomPixoo64.draw_line`: each computed point is handed to the strict
`set_pixel` with no bounds guard, so the first out-of-range point raises. -/
def draw_line (b : Buffer) (x0 y0 x1 y1 : Int) (c : Color) : Except String Buffer :=
  (draw_line_points x0 y0 x1 y1).foldlM (fun b p => set_pixel b p.1 p.2 c) b

/-! ### `draw_circle` (pixoo.py lines 319-358) -/

/-- The midpoint-circle loop `while x >= y` collecting the eight symmetric
octant points per step.  `y` starts at 0 and grows by 1 each iteration while
`x` never grows and stays at most `radius`, so at most `radius + 1`
iterations run; fuel `radius.toNat + 2` therefore never runs out before the
`x >= y` test fails, and the fuel-0 branch is unreachable. -/
def midpointLoop (cx cy : Int) : Nat → Int → Int → Int → List (Int × Int)
  | 0, _, _, _ => []
  | Nat.succ n, x, y, d =>
    if y ≤ x then
      [(cx + x, cy + y), (cx - x, cy + y), (cx + x, cy - y), (cx - x, cy - y),
       (cx + y, cy + x), (cx - y, cy + x), (cx + y, cy - x), (cx - y, cy - x)] ++
      (let y2 := y + 1
       if d < 0 then midpointLoop cx cy n x y2 (d + 2 * y2 + 1)
       else midpointLoop cx cy n (x - 1) y2 (d + 2 * (y2 - (x - 1)) + 1))
    else []

/-- The `outline_points` set of `draw_circle`: points from `x = radius`,
`y = 0`, `d = 1 - radius`, deduplicated (Python accumulates them in a `set`;
iteration order is irrelevant since every kept point is written once with the
same color). -/
def circleOutlinePoints (cx cy radius : Int) : List (Int × Int) :=
  (midpointLoop cx cy (radius.toNat + 2) radius 0 (1 - radius)).dedup

/-- The optional fill pass of `draw_circle`: the double loop over the bounding
box writing points with `x_off^2 + y_off^2 <= radius^2` through the bounds
guard. -/
def circleFill (b : Buffer) (cx cy radius : Int) (fc : Color) : Except String Buffer :=
  (intRange (-radius) (radius + 1)).foldlM (fun b y_off =>
    (intRange (-radius) (radius + 1)).foldlM (fun b x_off =>
      if x_off * x_off + y_off * y_off ≤ radius * radius then
        guardedSet b (cx + x_off) (cy + y_off) fc
      else Except.ok b) b) b

/-- `DivoomPixoo64.draw_circle`: optional fill pass, then the guarded writes
of the deduplicated outline points. -/
def draw_circle (b : Buffer) (cx cy radius : Int) (oc : Color)
    (fc : Option Color) : Except String Buffer := do
  let b ← match fc with
    | some f => circleFill b cx cy radius f
    | none => pure b
  (circleOutlinePoints cx cy radius).foldlM
    (fun b p => guardedSet b p.1 p.2 oc) b

/-! ### `draw_rectangle` (pixoo.py lines 360-388) -/

/-- `DivoomPixoo64.draw_rectangle`: optional strict-interior fill, then two
horizontal border rows, then two vertical border columns, every write behind
the bounds guard. -/
def draw_rectangle (b : Buffer) (x0 y0 x1 y1 : Int) (oc : Color)
    (fc : Option Color) : Except String Buffer := do
  let b ← match fc with
    | some f =>
      (intRange (min y0 y1 + 1) (max y0 y1)).foldlM (fun b y =>
        (intRange (min x0 x1 + 1) (max x0 x1)).foldlM (fun b x =>
          guardedSet b x y f) b) b
    | none => pure b
  let b ← (intRange (min x0 x1) (max x0 x1 + 1)).foldlM (fun b x =>
      [min y0 y1, max y0 y1].foldlM (fun b y => guardedSet b x y oc) b) b
  (intRange (min y0 y1) (max y0 y1 + 1)).foldlM (fun b y =>
      [min x0 x1, max x0 x1].foldlM (fun b x => guardedSet b x y oc) b) b

/-! ### `display_animation` (pixoo.py lines 173-205) -/

/-- One outbound `Draw/SendHttpGif` payload built by `display_animation`
(`PicData` carries the frame bytes; the base64 text encoding on the wire is
a bijection and is elided). -/
structure TransferMsg where
  PicNum : Nat
  PicWidth : Int
  PicOffset : Nat
  PicID : Int
  PicSpeed : Int
  PicData : List Nat
deriving DecidableEq

/-- `DivoomPixoo64.display_animation`: raises `ValueError` on an empty frame
list, otherwise sends one message per frame of `frames[:60]` in offset order,
all carrying `pic_num = min(len(frames), 60)` and the shared width, id and
delay.  The returned list is the sequence of payloads in submission order. -/
def display_animation (encoded_frames : List (List Nat)) (frame_delay : Int)
    (pic_width : Int) (pic_id : Int) : Except String (List TransferMsg) :=
  if encoded_frames = [] then Except.error "No frames to display"
  else
    let pic_num := min encoded_frames.length 60
    Except.ok ((encoded_frames.take 60).enum.map (fun pf =>
      { PicNum := pic_num, PicWidth := pic_width, PicOffset := pf.1
        PicID := pic_id, PicSpeed := frame_delay, PicData := pf.2 }))

/-! ## Shared concrete data for witnesses and counterexamples -/

/-- A well-sized frame payload whose bytes are all `v`. -/
def testFrame (v : Nat) : List Nat := List.replicate (64 * 64 * 3) v

theorem testFrame_length (v : Nat) : (testFrame v).length = 64 * 64 * 3 := by
  rw [testFrame, List.length_replicate]

/-! ## Claims about the reassembler (simulator.py) -/

/-- C1 (amended): while the reassembler is receiving, every well-formed
message with a nonzero offset is appended to the pending accumulator
regardless of its PicID and PicNum — the handler never compares them with
the accumulation in progress. -/
theorem receiving_appends_regardless_of_id (s : SimState) (m : GifMsg)
    (bytes : List Nat) (_hrecv : s.receiving_frames = true)
    (hdata : m.PicData = some bytes) (hlen : bytes.length = 64 * 64 * 3)
    (hoff : m.PicOffset.getD 0 ≠ 0) :
    ((handleSendGif s m).1).next_animation = s.next_animation ++ [bytes] := by
  unfold handleSendGif
  rw [hdata]
  simp only [hlen, if_true, hoff, if_false, if_pos rfl]
  split <;> simp [add_frame, finalize_animation]

/-- C1 witness: a mid-sequence message with a fresh PicID and PicNum is still
appended. -/
theorem receiving_appends_regardless_of_id_witness :
    ((handleSendGif
        { current_animation := [], next_animation := [testFrame 0],
          current_frame := 0, frame_delay := 100, receiving_frames := true }
        { PicID := some 999, PicNum := some 5, PicOffset := some 1,
          PicSpeed := some 100, PicData := some (testFrame 1) }).1).next_animation
      = [testFrame 0, testFrame 1] := by
  rw [receiving_appends_regardless_of_id _ _ (testFrame 1) rfl rfl
        (testFrame_length 1) (by decide)]
  rfl

/-- C1 counterexample: starting an accumulation with PicID 401 / PicNum 3 and
then sending a message with PicID 999 / PicNum 5 and offset 1, the foreign
message is accepted into the same accumulation, refuting the claim that only
messages matching the identifier and total of the accumulation in progress
are appended. -/
theorem different_id_still_accepted :
    ((handleSendGif
        (handleSendGif SimState.init
          { PicID := some 401, PicNum := some 3, PicOffset := some 0,
            PicSpeed := some 100, PicData := some (testFrame 0) }).1
        { PicID := some 999, PicNum := some 5, PicOffset := some 1,
          PicSpeed := some 100, PicData := some (testFrame 1) }).1).next_animation
      = [testFrame 0, testFrame 1]
    ∧ ((handleSendGif SimState.init
          { PicID := some 401, PicNum := some 3, PicOffset := some 0,
            PicSpeed := some 100, PicData := some (testFrame 0) }).1).receiving_frames
        = true := by
  constructor
  · simp [handleSendGif, SimState.init, testFrame_length, start_new_animation,
      add_frame, finalize_animation]
  · simp [handleSendGif, SimState.init, testFrame_length, start_new_animation,
      add_frame, finalize_animation]

/-- C3 (amended): a payload of the wrong length is rejected and discarded and
the handler leaves every state field unchanged except the frame delay, which
has already been overwritten with PicSpeed (default 100) before validation;
the request loop survives, answering with status 500. -/
theorem malformed_payload_only_delay (s : SimState) (m : GifMsg)
    (bytes : List Nat) (hdata : m.PicData = some bytes)
    (hlen : bytes.length ≠ 64 * 64 * 3) :
    handleSendGif s m =
      ({ s with frame_delay := m.PicSpeed.getD 100 }, GifResult.badPayload)
    ∧ handle_post s (some "Draw/SendHttpGif") m =
      ({ s with frame_delay := m.PicSpeed.getD 100 }, 500) := by
  have h1 : handleSendGif s m =
      ({ s with frame_delay := m.PicSpeed.getD 100 }, GifResult.badPayload) := by
    unfold handleSendGif
    rw [hdata]
    simp [hlen]
  exact ⟨h1, by simp [handle_post, h1]⟩

/-- C3 witness: a two-byte payload is rejected with only the delay field
rewritten. -/
theorem malformed_payload_only_delay_witness :
    handleSendGif SimState.init { PicSpeed := some 57, PicData := some [1, 2] } =
      ({ SimState.init with frame_delay := 57 }, GifResult.badPayload) := by
  have h := malformed_payload_only_delay SimState.init
    { PicSpeed := some 57, PicData := some [1, 2] } [1, 2] rfl (by decide)
  simpa using h.1

/-- C3 counterexample: with the published delay at its initial 100, a
malformed message carrying PicSpeed 57 leaves the receiver with frame delay
57, so the receiver state is not exactly the same after handling the
message. -/
theorem malformed_payload_changes_delay :
    (handleSendGif SimState.init
        { PicID := some 7, PicNum := some 2, PicOffset := some 0,
          PicSpeed := some 57, PicData := some [0, 0, 0, 0, 0] }).1.frame_delay = 57
    ∧ SimState.init.frame_delay = 100
    ∧ handle_post SimState.init (some "Draw/SendHttpGif")
        { PicID := some 7, PicNum := some 2, PicOffset := some 0,
          PicSpeed := some 57, PicData := some [0, 0, 0, 0, 0] } =
      ({ SimState.init with frame_delay := 57 }, 500) := by
  refine ⟨by simp [handleSendGif, SimState.init], rfl, ?_⟩
  simp [handle_post, handleSendGif, SimState.init]

/-- C4: a well-formed message whose offset equals the announced total minus
one finalizes the accumulation: the pending list with this frame appended
becomes the published animation, the frame index resets to 0 and the
receiving flag clears. -/
theorem final_offset_publishes (s : SimState) (m : GifMsg) (bytes : List Nat)
    (hdata : m.PicData = some bytes) (hlen : bytes.length = 64 * 64 * 3)
    (hfin : m.PicOffset.getD 0 = m.PicNum.getD 1 - 1) :
    handleSendGif s m =
      ({ current_animation :=
           (if m.PicOffset.getD 0 = 0 then [] else s.next_animation) ++ [bytes]
         next_animation :=
           (if m.PicOffset.getD 0 = 0 then [] else s.next_animation) ++ [bytes]
         current_frame := 0
         frame_delay := m.PicSpeed.getD 100
         receiving_frames := false }, GifResult.ok) := by
  simp only [handleSendGif, hdata]
  rw [if_pos hlen, if_pos hfin]
  by_cases h0 : m.PicOffset.getD 0 = 0 <;>
    simp [h0, start_new_animation, add_frame, finalize_animation]

/-- C4 witness, the reassembler scenario of the specification: frames with
offsets 0, 1, 2 and PicNum 3 for PicID 401 arrive in order; after offset 2
the published animation holds exactly the three frames in submission order
with current index 0 and the receiving flag cleared. -/
theorem final_offset_publishes_witness :
    (handleSendGif
        (handleSendGif
          (handleSendGif SimState.init
            { PicID := some 401, PicNum := some 3, PicOffset := some 0,
              PicSpeed := some 80, PicData := some (testFrame 0) }).1
          { PicID := some 401, PicNum := some 3, PicOffset := some 1,
            PicSpeed := some 80, PicData := some (testFrame 1) }).1
        { PicID := some 401, PicNum := some 3, PicOffset := some 2,
          PicSpeed := some 80, PicData := some (testFrame 2) }).1
      = { current_animation := [testFrame 0, testFrame 1, testFrame 2]
          next_animation := [testFrame 0, testFrame 1, testFrame 2]
          current_frame := 0, frame_delay := 80, receiving_frames := false } := by
  have h := final_offset_publishes
    (handleSendGif
      (handleSendGif SimState.init
        { PicID := some 401, PicNum := some 3, PicOffset := some 0,
          PicSpeed := some 80, PicData := some (testFrame 0) }).1
      { PicID := some 401, PicNum := some 3, PicOffset := some 1,
        PicSpeed := some 80, PicData := some (testFrame 1) }).1
    { PicID := some 401, PicNum := some 3, PicOffset := some 2,
      PicSpeed := some 80, PicData := some (testFrame 2) }
    (testFrame 2) rfl (testFrame_length 2) (by decide)
  rw [Prod.ext_iff] at h
  rw [h.1]
  simp [handleSendGif, SimState.init, testFrame_length, start_new_animation,
    add_frame, finalize_animation]

/-- C5 (amended): a well-formed offset-0 message that does not itself
complete its sequence (PicNum different from 1) restarts the accumulation:
the pending accumulator is discarded and replaced by exactly the new frame,
the receiving flag is set, no error is raised, and the published animation
and frame index are untouched.  When PicNum is 1 the same message also
finalizes, which is the case the counterexample exhibits. -/
theorem offset_zero_restarts (s : SimState) (m : GifMsg) (bytes : List Nat)
    (hdata : m.PicData = some bytes) (hlen : bytes.length = 64 * 64 * 3)
    (hoff : m.PicOffset.getD 0 = 0) (hnum : m.PicNum.getD 1 ≠ 1) :
    handleSendGif s m =
      ({ s with frame_delay := m.PicSpeed.getD 100, receiving_frames := true,
                next_animation := [bytes] }, GifResult.ok) := by
  unfold handleSendGif
  rw [hdata]
  have hfin : ¬ ((0 : Int) = m.PicNum.getD 1 - 1) := by omega
  simp [hlen, hoff, hfin, start_new_animation, add_frame]

/-- C5 witness: an offset-0 message with PicNum 3 arriving over a half
received prior sequence discards the partial frames, leaves the published
animation alone and accumulates only the new frame. -/
theorem offset_zero_restarts_witness :
    handleSendGif
        { current_animation := [[7]], next_animation := [[1], [2]],
          current_frame := 0, frame_delay := 100, receiving_frames := true }
        { PicID := some 5, PicNum := some 3, PicOffset := some 0,
          PicSpeed := some 100, PicData := some (testFrame 9) } =
      ({ current_animation := [[7]], next_animation := [testFrame 9],
         current_frame := 0, frame_delay := 100, receiving_frames := true },
       GifResult.ok) := by
  have h := offset_zero_restarts
    { current_animation := [[7]], next_animation := [[1], [2]],
      current_frame := 0, frame_delay := 100, receiving_frames := true }
    { PicID := some 5, PicNum := some 3, PicOffset := some 0,
      PicSpeed := some 100, PicData := some (testFrame 9) }
    (testFrame 9) rfl (testFrame_length 9) (by decide) (by decide)
  simpa using h

/-- C5 counterexample: an offset-0 message announcing PicNum 1 both restarts
and immediately finalizes, so the previously published animation is replaced
rather than left untouched, refuting the claim for that input. -/
theorem offset_zero_single_frame_replaces :
    (handleSendGif
        { current_animation := [[0]], next_animation := [[1]],
          current_frame := 0, frame_delay := 100, receiving_frames := true }
        { PicID := some 5, PicNum := some 1, PicOffset := some 0,
          PicSpeed := some 100, PicData := some (testFrame 2) }).1.current_animation
      = [testFrame 2]
    ∧ [testFrame 2] ≠ [[0]] := by
  constructor
  · simp [handleSendGif, testFrame_length, start_new_animation, add_frame,
      finalize_animation]
  · intro h
    have := congrArg (fun l => (l.headD []).length) h
    simp [testFrame_length] at this

/-- C9: while the receiving flag is set, get_current_frame returns none even
when a non-empty published animation exists, and the render tick neither
renders nor changes the state, so playback pauses during reception. -/
theorem receiving_pauses_playback (s : SimState)
    (hrecv : s.receiving_frames = true) (_hne : s.current_animation ≠ []) :
    get_current_frame s = (none, s) ∧ display_tick s = (none, s) := by
  have h1 : get_current_frame s = (none, s) := by
    simp [get_current_frame, hrecv]
  exact ⟨h1, by simp [display_tick, h1]⟩

/-- C9 witness: with a one-frame published animation and the receiving flag
set, the tick renders nothing. -/
theorem receiving_pauses_playback_witness :
    display_tick
        { current_animation := [[5]], next_animation := [], current_frame := 0,
          frame_delay := 100, receiving_frames := true }
      = (none,
         { current_animation := [[5]], next_animation := [], current_frame := 0,
           frame_delay := 100, receiving_frames := true }) :=
  (receiving_pauses_playback _ rfl (by decide)).2

/-! ## Claims about the pixel buffer and the encoder (pixoo.py) -/

/-- C7: for in-range coordinates set_pixel succeeds, an immediate read of the
written cell returns exactly the written color and every other cell is
unchanged; for any coordinate outside [0,64) it fails with the out-of-bounds
error, and there is no other rejection. -/
theorem set_pixel_spec (b : Buffer) (x y : Int) (c : Color) :
    ((0 ≤ x ∧ x < 64 ∧ 0 ≤ y ∧ y < 64) →
      set_pixel b x y c = Except.ok (putpixel b x y c)
      ∧ putpixel b x y c x y = c
      ∧ (∀ p q : Int, ¬ (p = x ∧ q = y) → putpixel b x y c p q = b p q))
    ∧ (¬ (0 ≤ x ∧ x < 64 ∧ 0 ≤ y ∧ y < 64) →
      set_pixel b x y c = Except.error "Pixel coordinates out of bounds") := by
  constructor
  · intro h
    refine ⟨by simp [set_pixel, h], by simp [putpixel], ?_⟩
    intro p q hpq
    simp only [putpixel, if_neg hpq]
  · intro h
    simp [set_pixel, h]

/-- C7 witness: writing color (9, 8, 7) at (3, 5) reads back exactly that
color, leaves (4, 5) at the background color, and a write at x = 64 fails. -/
theorem set_pixel_spec_witness :
    set_pixel (buffer_new (0, 0, 0)) 3 5 (9, 8, 7) =
      Except.ok (putpixel (buffer_new (0, 0, 0)) 3 5 (9, 8, 7))
    ∧ putpixel (buffer_new (0, 0, 0)) 3 5 (9, 8, 7) 3 5 = (9, 8, 7)
    ∧ putpixel (buffer_new (0, 0, 0)) 3 5 (9, 8, 7) 4 5 = (0, 0, 0)
    ∧ set_pixel (buffer_new (0, 0, 0)) 64 0 (9, 8, 7) =
      Except.error "Pixel coordinates out of bounds" := by
  have h := set_pixel_spec (buffer_new (0, 0, 0)) 3 5 (9, 8, 7)
  have h2 := set_pixel_spec (buffer_new (0, 0, 0)) 64 0 (9, 8, 7)
  obtain ⟨ha, hb, hc⟩ := h.1 (by decide)
  exact ⟨ha, hb, by rw [hc 4 5 (by decide)]; rfl, h2.2 (by decide)⟩

/-- C6: encoding a non-empty animation emits exactly min(frame count, 60)
messages with offsets 0..N-1 in order, all sharing PicNum = min(count, 60),
the width, the identifier and the delay, the i-th carrying the i-th frame;
a zero-frame animation fails with the empty-animation error and emits
nothing. -/
theorem display_animation_spec (encoded_frames : List (List Nat))
    (frame_delay pic_width pic_id : Int) :
    (encoded_frames = [] →
      display_animation encoded_frames frame_delay pic_width pic_id =
        Except.error "No frames to display")
    ∧ (encoded_frames ≠ [] →
      ∃ msgs, display_animation encoded_frames frame_delay pic_width pic_id =
          Except.ok msgs
        ∧ msgs.length = min encoded_frames.length 60
        ∧ ∀ i (h : i < msgs.length),
            msgs[i].PicOffset = i
            ∧ msgs[i].PicNum = min encoded_frames.length 60
            ∧ msgs[i].PicWidth = pic_width
            ∧ msgs[i].PicID = pic_id
            ∧ msgs[i].PicSpeed = frame_delay
            ∧ msgs[i].PicData = encoded_frames.getD i []) := by
  constructor
  · intro h
    simp [display_animation, h]
  · intro h
    refine ⟨_, by rw [display_animation, if_neg h], ?_, ?_⟩
    · simp [List.enum_length, List.length_take, Nat.min_comm]
    · intro i hi
      have hlen : i < (encoded_frames.take 60).length := by
        simpa [List.enum_length] using hi
      have hlen2 : i < encoded_frames.length := by
        simp [List.length_take] at hlen
        omega
      simp [List.getElem_map, List.getElem_enum, List.getElem_take,
        List.getD_eq_getElem encoded_frames [] hlen2,
        List.getElem?_eq_getElem hlen2]

/-- C6 witness, the encoder scenario of the specification: an animation with
61 frames yields exactly 60 messages, each with PicNum 60, the last with
offset 59. -/
theorem display_animation_spec_witness :
    ∃ msgs, display_animation (List.replicate 61 [7]) 100 64 5 = Except.ok msgs
      ∧ msgs.length = 60
      ∧ ∀ i (h : i < msgs.length), msgs[i].PicNum = 60 ∧ msgs[i].PicOffset = i := by
  obtain ⟨msgs, hok, hlen, hall⟩ :=
    (display_animation_spec (List.replicate 61 [7]) 100 64 5).2 (by simp)
  refine ⟨msgs, hok, by simpa using hlen, ?_⟩
  intro i hi
  obtain ⟨h1, h2, -⟩ := hall i hi
  exact ⟨by simpa using h2, h1⟩

/-! ## Silent clipping of the composite rasterizers (C2)

Every `set_pixel` call issued by `draw_circle` and `draw_rectangle` sits
behind the bounds guard, so those operations are total: they equal an
always-successful pure write and never touch a cell outside the canvas.
`draw_line` has no such guard, which the counterexample exhibits. -/

/-- Coordinates addressable by the 64x64 buffer. -/
abbrev inRange (p q : Int) : Prop := 0 ≤ p ∧ p < 64 ∧ 0 ≤ q ∧ q < 64

/-- The pure effect of `guardedSet`: write when in range, skip otherwise. -/
def guardedWrite (b : Buffer) (x y : Int) (c : Color) : Buffer :=
  if 0 ≤ x ∧ x < 64 ∧ 0 ≤ y ∧ y < 64 then putpixel b x y c else b

theorem guardedSet_eq (b : Buffer) (x y : Int) (c : Color) :
    guardedSet b x y c = Except.ok (guardedWrite b x y c) := by
  unfold guardedSet guardedWrite set_pixel
  split <;> rfl

theorem guardedWrite_outside (b : Buffer) (x y : Int) (c : Color) (p q : Int)
    (hpq : ¬ inRange p q) : guardedWrite b x y c p q = b p q := by
  unfold guardedWrite
  split
  · rename_i h
    have hn : ¬ (p = x ∧ q = y) := by
      rintro ⟨rfl, rfl⟩
      exact hpq h
    simp only [putpixel, if_neg hn]
  · rfl

theorem ok_bind {β : Type} (a : β) (f : β → Except String β) :
    (Except.ok a : Except String β) >>= f = f a := rfl

/-- A monadic fold whose every step succeeds equals the corresponding pure
fold wrapped in ok. -/
theorem foldlM_of_pure {α β : Type} (step : β → α → Except String β)
    (p : β → α → β) (hstep : ∀ b a, step b a = Except.ok (p b a)) :
    ∀ (l : List α) (b : β), l.foldlM step b = Except.ok (l.foldl p b) := by
  intro l
  induction l with
  | nil => intro b; rfl
  | cons a t ih =>
    intro b
    rw [List.foldlM_cons, hstep, ok_bind, ih, List.foldl_cons]

/-- A pure fold whose every step preserves out-of-range cells preserves them
globally. -/
theorem foldl_outside {α : Type} (step : Buffer → α → Buffer)
    (hstep : ∀ b a p q, ¬ inRange p q → step b a p q = b p q) :
    ∀ (l : List α) (b : Buffer) (p q : Int), ¬ inRange p q →
      l.foldl step b p q = b p q := by
  intro l
  induction l with
  | nil => intro b p q _; rfl
  | cons a t ih =>
    intro b p q hpq
    rw [List.foldl_cons, ih _ _ _ hpq, hstep _ _ _ _ hpq]

/-- Guarded writes of a point list, the pure form of the outline passes. -/
def writeList (b : Buffer) (pts : List (Int × Int)) (c : Color) : Buffer :=
  pts.foldl (fun b p => guardedWrite b p.1 p.2 c) b

theorem foldlM_guardedSet (pts : List (Int × Int)) (c : Color) (b : Buffer) :
    pts.foldlM (fun b p => guardedSet b p.1 p.2 c) b =
      Except.ok (writeList b pts c) :=
  foldlM_of_pure _ _ (fun b p => guardedSet_eq b p.1 p.2 c) pts b

theorem writeList_outside (pts : List (Int × Int)) (c : Color) (b : Buffer)
    (p q : Int) (hpq : ¬ inRange p q) : writeList b pts c p q = b p q :=
  foldl_outside _ (fun b a p q h => guardedWrite_outside b a.1 a.2 c p q h)
    pts b p q hpq

/-- Pure effect of the fill pass of `draw_circle`. -/
def circleFillWrite (b : Buffer) (cx cy radius : Int) (fc : Color) : Buffer :=
  (intRange (-radius) (radius + 1)).foldl (fun b y_off =>
    (intRange (-radius) (radius + 1)).foldl (fun b x_off =>
      if x_off * x_off + y_off * y_off ≤ radius * radius then
        guardedWrite b (cx + x_off) (cy + y_off) fc
      else b) b) b

theorem circleFill_eq (b : Buffer) (cx cy radius : Int) (fc : Color) :
    circleFill b cx cy radius fc =
      Except.ok (circleFillWrite b cx cy radius fc) := by
  unfold circleFill circleFillWrite
  refine foldlM_of_pure _ _ (fun b1 y_off => ?_) _ _
  refine foldlM_of_pure _ _ (fun b2 x_off => ?_) _ _
  split
  · exact guardedSet_eq b2 (cx + x_off) (cy + y_off) fc
  · rfl

theorem circleFillWrite_outside (b : Buffer) (cx cy radius : Int) (fc : Color)
    (p q : Int) (hpq : ¬ inRange p q) :
    circleFillWrite b cx cy radius fc p q = b p q := by
  unfold circleFillWrite
  refine foldl_outside _ (fun b1 y_off p1 q1 h1 => ?_) _ _ _ _ hpq
  refine foldl_outside _ (fun b2 x_off p2 q2 h2 => ?_) _ _ _ _ h1
  split
  · exact guardedWrite_outside b2 (cx + x_off) (cy + y_off) fc p2 q2 h2
  · rfl

/-- Pure effect of `draw_circle`. -/
def draw_circle_write (b : Buffer) (cx cy radius : Int) (oc : Color)
    (fc : Option Color) : Buffer :=
  let b1 := match fc with
    | some f => circleFillWrite b cx cy radius f
    | none => b
  writeList b1 (circleOutlinePoints cx cy radius) oc

theorem draw_circle_eq (b : Buffer) (cx cy radius : Int) (oc : Color)
    (fc : Option Color) :
    draw_circle b cx cy radius oc fc =
      Except.ok (draw_circle_write b cx cy radius oc fc) := by
  cases fc with
  | none =>
    show (Except.ok b : Except String Buffer) >>= _ = _
    rw [ok_bind]
    exact foldlM_guardedSet _ _ _
  | some f =>
    show circleFill b cx cy radius f >>= _ = _
    rw [circleFill_eq, ok_bind]
    exact foldlM_guardedSet _ _ _

theorem draw_circle_write_outside (b : Buffer) (cx cy radius : Int)
    (oc : Color) (fc : Option Color) (p q : Int) (hpq : ¬ inRange p q) :
    draw_circle_write b cx cy radius oc fc p q = b p q := by
  cases fc with
  | none => exact writeList_outside _ _ _ _ _ hpq
  | some f =>
    show writeList (circleFillWrite b cx cy radius f) _ oc p q = b p q
    rw [writeList_outside _ _ _ _ _ hpq,
      circleFillWrite_outside _ _ _ _ _ _ _ hpq]

/-- Pure effect of `draw_rectangle`. -/
def draw_rectangle_write (b : Buffer) (x0 y0 x1 y1 : Int) (oc : Color)
    (fc : Option Color) : Buffer :=
  let b1 := match fc with
    | some f =>
      (intRange (min y0 y1 + 1) (max y0 y1)).foldl (fun b y =>
        (intRange (min x0 x1 + 1) (max x0 x1)).foldl (fun b x =>
          guardedWrite b x y f) b) b
    | none => b
  let b2 := (intRange (min x0 x1) (max x0 x1 + 1)).foldl (fun b x =>
      [min y0 y1, max y0 y1].foldl (fun b y => guardedWrite b x y oc) b) b1
  (intRange (min y0 y1) (max y0 y1 + 1)).foldl (fun b y =>
      [min x0 x1, max x0 x1].foldl (fun b x => guardedWrite b x y oc) b) b2

theorem draw_rectangle_eq (b : Buffer) (x0 y0 x1 y1 : Int) (oc : Color)
    (fc : Option Color) :
    draw_rectangle b x0 y0 x1 y1 oc fc =
      Except.ok (draw_rectangle_write b x0 y0 x1 y1 oc fc) := by
  have hrow : ∀ (b1 : Buffer),
      (intRange (min x0 x1) (max x0 x1 + 1)).foldlM (fun b x =>
        [min y0 y1, max y0 y1].foldlM (fun b y => guardedSet b x y oc) b) b1 =
      Except.ok ((intRange (min x0 x1) (max x0 x1 + 1)).foldl (fun b x =>
        [min y0 y1, max y0 y1].foldl (fun b y => guardedWrite b x y oc) b) b1) := by
    intro b1
    refine foldlM_of_pure _ _ (fun b2 x => ?_) _ _
    exact foldlM_of_pure _ _ (fun b3 y => guardedSet_eq b3 x y oc) _ _
  have hcol : ∀ (b1 : Buffer),
      (intRange (min y0 y1) (max y0 y1 + 1)).foldlM (fun b y =>
        [min x0 x1, max x0 x1].foldlM (fun b x => guardedSet b x y oc) b) b1 =
      Except.ok ((intRange (min y0 y1) (max y0 y1 + 1)).foldl (fun b y =>
        [min x0 x1, max x0 x1].foldl (fun b x => guardedWrite b x y oc) b) b1) := by
    intro b1
    refine foldlM_of_pure _ _ (fun b2 y => ?_) _ _
    exact foldlM_of_pure _ _ (fun b3 x => guardedSet_eq b3 x y oc) _ _
  cases fc with
  | none =>
    simp only [draw_rectangle, draw_rectangle_write, pure_bind, hrow, ok_bind,
      hcol]
  | some f =>
    have hfill :
        (intRange (min y0 y1 + 1) (max y0 y1)).foldlM (fun b y =>
          (intRange (min x0 x1 + 1) (max x0 x1)).foldlM (fun b x =>
            guardedSet b x y f) b) b =
        Except.ok ((intRange (min y0 y1 + 1) (max y0 y1)).foldl (fun b y =>
          (intRange (min x0 x1 + 1) (max x0 x1)).foldl (fun b x =>
            guardedWrite b x y f) b) b) := by
      refine foldlM_of_pure _ _ (fun b2 y => ?_) _ _
      exact foldlM_of_pure _ _ (fun b3 x => guardedSet_eq b3 x y f) _ _
    simp only [draw_rectangle, draw_rectangle_write, hfill, ok_bind, hrow,
      hcol]

theorem draw_rectangle_write_outside (b : Buffer) (x0 y0 x1 y1 : Int)
    (oc : Color) (fc : Option Color) (p q : Int) (hpq : ¬ inRange p q) :
    draw_rectangle_write b x0 y0 x1 y1 oc fc p q = b p q := by
  have hrow : ∀ (b1 : Buffer) (p1 q1 : Int), ¬ inRange p1 q1 →
      (intRange (min x0 x1) (max x0 x1 + 1)).foldl (fun b x =>
        [min y0 y1, max y0 y1].foldl (fun b y => guardedWrite b x y oc) b) b1 p1 q1
        = b1 p1 q1 := by
    intro b1 p1 q1 h1
    refine foldl_outside _ (fun b2 x p2 q2 h2 => ?_) _ _ _ _ h1
    exact foldl_outside _ (fun b3 y p3 q3 h3 =>
      guardedWrite_outside b3 x y oc p3 q3 h3) _ _ _ _ h2
  have hcol : ∀ (b1 : Buffer) (p1 q1 : Int), ¬ inRange p1 q1 →
      (intRange (min y0 y1) (max y0 y1 + 1)).foldl (fun b y =>
        [min x0 x1, max x0 x1].foldl (fun b x => guardedWrite b x y oc) b) b1 p1 q1
        = b1 p1 q1 := by
    intro b1 p1 q1 h1
    refine foldl_outside _ (fun b2 y p2 q2 h2 => ?_) _ _ _ _ h1
    exact foldl_outside _ (fun b3 x p3 q3 h3 =>
      guardedWrite_outside b3 x y oc p3 q3 h3) _ _ _ _ h2
  cases fc with
  | none =>
    simp only [draw_rectangle_write]
    rw [hcol _ _ _ hpq, hrow _ _ _ hpq]
  | some f =>
    have hfill : ∀ (p1 q1 : Int), ¬ inRange p1 q1 →
        (intRange (min y0 y1 + 1) (max y0 y1)).foldl (fun b y =>
          (intRange (min x0 x1 + 1) (max x0 x1)).foldl (fun b x =>
            guardedWrite b x y f) b) b p1 q1 = b p1 q1 := by
      intro p1 q1 h1
      refine foldl_outside _ (fun b2 y p2 q2 h2 => ?_) _ _ _ _ h1
      exact foldl_outside _ (fun b3 x p3 q3 h3 =>
        guardedWrite_outside b3 x y f p3 q3 h3) _ _ _ _ h2
    simp only [draw_rectangle_write]
    rw [hcol _ _ _ hpq, hrow _ _ _ hpq, hfill _ _ hpq]

/-- C2 (amended): draw_circle and draw_rectangle clip silently for all
integer arguments — they always succeed and never change any cell outside
[0,64) x [0,64) — whereas draw_line passes computed points to the strict
set_pixel with no guard and raises CoordinateOutOfBounds on a partially
off-canvas line, as the counterexample shows. -/
theorem circle_rectangle_clip_silently (b1 b2 : Buffer)
    (cx cy radius x0 y0 x1 y1 : Int) (oc1 oc2 : Color) (fc1 fc2 : Option Color) :
    (draw_circle b1 cx cy radius oc1 fc1 =
        Except.ok (draw_circle_write b1 cx cy radius oc1 fc1)
      ∧ ∀ p q : Int, ¬ inRange p q →
          draw_circle_write b1 cx cy radius oc1 fc1 p q = b1 p q)
    ∧ (draw_rectangle b2 x0 y0 x1 y1 oc2 fc2 =
        Except.ok (draw_rectangle_write b2 x0 y0 x1 y1 oc2 fc2)
      ∧ ∀ p q : Int, ¬ inRange p q →
          draw_rectangle_write b2 x0 y0 x1 y1 oc2 fc2 p q = b2 p q) :=
  ⟨⟨draw_circle_eq b1 cx cy radius oc1 fc1,
    fun p q h => draw_circle_write_outside b1 cx cy radius oc1 fc1 p q h⟩,
   ⟨draw_rectangle_eq b2 x0 y0 x1 y1 oc2 fc2,
    fun p q h => draw_rectangle_write_outside b2 x0 y0 x1 y1 oc2 fc2 p q h⟩⟩

/-- C2 witness: a circle and a rectangle reaching off-canvas both succeed and
leave an off-canvas cell untouched. -/
theorem circle_rectangle_clip_silently_witness :
    (draw_circle (buffer_new (0, 0, 0)) 60 60 10 (1, 1, 1) (some (2, 2, 2)) =
      Except.ok (draw_circle_write (buffer_new (0, 0, 0)) 60 60 10 (1, 1, 1)
        (some (2, 2, 2)))
      ∧ draw_circle_write (buffer_new (0, 0, 0)) 60 60 10 (1, 1, 1)
          (some (2, 2, 2)) 70 60 = (0, 0, 0))
    ∧ (draw_rectangle (buffer_new (0, 0, 0)) 50 50 80 80 (1, 1, 1) none =
      Except.ok (draw_rectangle_write (buffer_new (0, 0, 0)) 50 50 80 80
        (1, 1, 1) none)
      ∧ draw_rectangle_write (buffer_new (0, 0, 0)) 50 50 80 80 (1, 1, 1) none
          70 60 = (0, 0, 0)) := by
  have h := circle_rectangle_clip_silently (buffer_new (0, 0, 0))
    (buffer_new (0, 0, 0)) 60 60 10 50 50 80 80 (1, 1, 1) (1, 1, 1)
    (some (2, 2, 2)) none
  exact ⟨⟨h.1.1, by rw [h.1.2 70 60 (by decide)]; rfl⟩,
         ⟨h.2.1, by rw [h.2.2 70 60 (by decide)]; rfl⟩⟩

/-- C2 counterexample: the one-step line from (63,0) to (64,0) reaches the
off-canvas pixel (64,0); draw_line hands it to set_pixel unguarded and the
operation raises CoordinateOutOfBounds instead of silently skipping it. -/
theorem draw_line_raises_out_of_bounds :
    draw_line (buffer_new (0, 0, 0)) 63 0 64 0 (255, 0, 0) =
      Except.error "Pixel coordinates out of bounds" := rfl

/-! ## Structure of the Bresenham point lists (C8) -/

theorem getLast?_cons_of_ne_nil {α : Type} (a : α) {l : List α} (h : l ≠ []) :
    (a :: l).getLast? = l.getLast? := by
  cases l with
  | nil => exact absurd rfl h
  | cons b t => exact List.getLast?_cons_cons

theorem bresLoopX_ne_nil (sx sy : Int) (dx dy : Nat) (n : Nat) (x y err : Int) :
    bresLoopX sx sy dx dy n x y err ≠ [] := by
  cases n <;> simp [bresLoopX]

theorem bresLoopX_length (sx sy : Int) (dx dy : Nat) :
    ∀ (n : Nat) (x y err : Int),
      (bresLoopX sx sy dx dy n x y err).length = n + 1 := by
  intro n
  induction n with
  | zero => intro x y err; rfl
  | succ m ih =>
    intro x y err
    simp only [bresLoopX]
    split <;> simp [ih]

theorem bresLoopX_head (sx sy : Int) (dx dy : Nat) (n : Nat) (x y err : Int) :
    (bresLoopX sx sy dx dy n x y err).head? = some (x, y) := by
  cases n <;> simp [bresLoopX]

theorem bresLoopX_map_fst (sx sy : Int) (dx dy : Nat) :
    ∀ (n : Nat) (x y err : Int),
      (bresLoopX sx sy dx dy n x y err).map Prod.fst
        = (List.range (n + 1)).map (fun i : Nat => x + (i : Int) * sx) := by
  intro n
  induction n with
  | zero =>
    intro x y err
    simp [bresLoopX, show List.range 1 = [0] from rfl]
  | succ m ih =>
    intro x y err
    have hr : (List.range (m + 1 + 1)).map (fun i : Nat => x + (i : Int) * sx)
        = x :: (List.range (m + 1)).map (fun i : Nat => x + sx + (i : Int) * sx) := by
      rw [List.range_succ_eq_map]
      simp only [List.map_cons, List.map_map]
      refine congrArg₂ List.cons (by simp) ?_
      refine List.map_congr_left ?_
      intro a _
      simp only [Function.comp]
      push_cast
      ring
    simp only [bresLoopX]
    split <;> rw [List.map_cons, ih, hr]

theorem bresLoopX_nodup (sx sy : Int) (dx dy : Nat) (hsx : sx = 1 ∨ sx = -1)
    (n : Nat) (x y err : Int) : (bresLoopX sx sy dx dy n x y err).Nodup := by
  apply List.Nodup.of_map Prod.fst
  rw [bresLoopX_map_fst]
  refine List.Nodup.map ?_ (List.nodup_range _)
  intro a b hab
  rcases hsx with h | h <;> (subst h; simp at hab; omega)

theorem bresLoopX_chain (sx sy : Int) (dx dy : Nat) :
    ∀ (n : Nat) (x y err : Int),
      List.Chain'
        (fun p q : Int × Int => q.1 = p.1 + sx ∧ (q.2 = p.2 ∨ q.2 = p.2 + sy))
        (bresLoopX sx sy dx dy n x y err) := by
  intro n
  induction n with
  | zero => intro x y err; exact List.chain'_singleton _
  | succ m ih =>
    intro x y err
    simp only [bresLoopX]
    split
    · rw [List.chain'_cons']
      refine ⟨?_, ih _ _ _⟩
      intro z hz
      rw [bresLoopX_head, Option.mem_def, Option.some.injEq] at hz
      subst hz
      exact ⟨rfl, Or.inr rfl⟩
    · rw [List.chain'_cons']
      refine ⟨?_, ih _ _ _⟩
      intro z hz
      rw [bresLoopX_head, Option.mem_def, Option.some.injEq] at hz
      subst hz
      exact ⟨rfl, Or.inl rfl⟩

/-- Invariant of the error accumulator in the major-x loop: with
`0 ≤ err < dx` and `dy ≤ dx`, after `n` iterations the final point is
`(x + n*sx, y + k*sy)` where the number `k` of minor steps satisfies
`err - n*dy + k*dx = e` for some `0 ≤ e < dx`. -/
theorem bresLoopX_getLast (sx sy : Int) (dx dy : Nat) (hdy : dy ≤ dx) :
    ∀ (n : Nat) (x y err : Int), 0 ≤ err → err < (dx : Int) →
      ∃ (k : Nat) (e : Int),
        (bresLoopX sx sy dx dy n x y err).getLast?
          = some (x + (n : Int) * sx, y + (k : Int) * sy)
        ∧ 0 ≤ e ∧ e < (dx : Int) ∧ err - (n : Int) * dy + (k : Int) * dx = e := by
  intro n
  induction n with
  | zero =>
    intro x y err h0 h1
    exact ⟨0, err, by simp [bresLoopX], h0, h1, by push_cast; ring⟩
  | succ m ih =>
    intro x y err h0 h1
    simp only [bresLoopX]
    by_cases hc : err - (dy : Int) < 0
    · rw [if_pos hc]
      have h0n : (0:Int) ≤ err - dy + dx := by omega
      have h1n : err - (dy:Int) + dx < (dx : Int) := by omega
      obtain ⟨k, e, hlast, he0, he1, heq⟩ := ih (x + sx) (y + sy) _ h0n h1n
      refine ⟨k + 1, e, ?_, he0, he1, ?_⟩
      · rw [getLast?_cons_of_ne_nil _ (bresLoopX_ne_nil _ _ _ _ _ _ _ _), hlast]
        congr 2 <;> (push_cast; ring)
      · push_cast at heq ⊢
        linear_combination heq
    · rw [if_neg hc]
      have h0n : (0:Int) ≤ err - dy := by omega
      have h1n : err - (dy:Int) < (dx : Int) := by omega
      obtain ⟨k, e, hlast, he0, he1, heq⟩ := ih (x + sx) y _ h0n h1n
      refine ⟨k, e, ?_, he0, he1, ?_⟩
      · rw [getLast?_cons_of_ne_nil _ (bresLoopX_ne_nil _ _ _ _ _ _ _ _), hlast]
        congr 2
        push_cast
        ring
      · push_cast at heq ⊢
        linear_combination heq

/-- With the initial error `dx / 2` and a full run of `dx` iterations the
major-x loop ends exactly `dy` minor steps away: the last point is
`(x + dx*sx, y + dy*sy)`. -/
theorem bresLoopX_last_full (sx sy : Int) (dx dy : Nat) (hdxdy : dy < dx)
    (x y : Int) :
    (bresLoopX sx sy dx dy dx x y ((dx / 2 : Nat) : Int)).getLast?
      = some (x + (dx : Int) * sx, y + (dy : Int) * sy) := by
  have h0 : (0:Int) ≤ ((dx / 2 : Nat) : Int) := by omega
  have h1 : ((dx / 2 : Nat) : Int) < (dx : Int) := by omega
  obtain ⟨k, e, hlast, he0, he1, heq⟩ :=
    bresLoopX_getLast sx sy dx dy (Nat.le_of_lt hdxdy) dx x y _ h0 h1
  have hmul : (dx:Int) * ((k:Int) - (dy:Int)) = e - ((dx / 2 : Nat) : Int) := by
    linear_combination heq
  have hk : (k : Int) = (dy : Int) := by
    rcases lt_trichotomy (k : Int) (dy : Int) with h | h | h
    · exfalso
      have h2 : (k:Int) - dy ≤ -1 := by omega
      have h3 : (dx:Int) * ((k:Int) - dy) ≤ (dx:Int) * (-1) :=
        mul_le_mul_of_nonneg_left h2 (by positivity)
      rw [hmul] at h3
      omega
    · exact h
    · exfalso
      have h2 : (1:Int) ≤ (k:Int) - dy := by omega
      have h3 : (dx:Int) * 1 ≤ (dx:Int) * ((k:Int) - dy) :=
        mul_le_mul_of_nonneg_left h2 (by positivity)
      rw [hmul] at h3
      omega
  rw [hlast, hk]

theorem bresLoopY_ne_nil (sx sy : Int) (dx dy : Nat) (n : Nat) (x y err : Int) :
    bresLoopY sx sy dx dy n x y err ≠ [] := by
  cases n <;> simp [bresLoopY]

theorem bresLoopY_length (sx sy : Int) (dx dy : Nat) :
    ∀ (n : Nat) (x y err : Int),
      (bresLoopY sx sy dx dy n x y err).length = n + 1 := by
  intro n
  induction n with
  | zero => intro x y err; rfl
  | succ m ih =>
    intro x y err
    simp only [bresLoopY]
    split <;> simp [ih]

theorem bresLoopY_head (sx sy : Int) (dx dy : Nat) (n : Nat) (x y err : Int) :
    (bresLoopY sx sy dx dy n x y err).head? = some (x, y) := by
  cases n <;> simp [bresLoopY]

theorem bresLoopY_map_snd (sx sy : Int) (dx dy : Nat) :
    ∀ (n : Nat) (x y err : Int),
      (bresLoopY sx sy dx dy n x y err).map Prod.snd
        = (List.range (n + 1)).map (fun i : Nat => y + (i : Int) * sy) := by
  intro n
  induction n with
  | zero =>
    intro x y err
    simp [bresLoopY, show List.range 1 = [0] from rfl]
  | succ m ih =>
    intro x y err
    have hr : (List.range (m + 1 + 1)).map (fun i : Nat => y + (i : Int) * sy)
        = y :: (List.range (m + 1)).map (fun i : Nat => y + sy + (i : Int) * sy) := by
      rw [List.range_succ_eq_map]
      simp only [List.map_cons, List.map_map]
      refine congrArg₂ List.cons (by simp) ?_
      refine List.map_congr_left ?_
      intro a _
      simp only [Function.comp]
      push_cast
      ring
    simp only [bresLoopY]
    split <;> rw [List.map_cons, ih, hr]

theorem bresLoopY_nodup (sx sy : Int) (dx dy : Nat) (hsy : sy = 1 ∨ sy = -1)
    (n : Nat) (x y err : Int) : (bresLoopY sx sy dx dy n x y err).Nodup := by
  apply List.Nodup.of_map Prod.snd
  rw [bresLoopY_map_snd]
  refine List.Nodup.map ?_ (List.nodup_range _)
  intro a b hab
  rcases hsy with h | h <;> (subst h; simp at hab; omega)

theorem bresLoopY_chain (sx sy : Int) (dx dy : Nat) :
    ∀ (n : Nat) (x y err : Int),
      List.Chain'
        (fun p q : Int × Int => q.2 = p.2 + sy ∧ (q.1 = p.1 ∨ q.1 = p.1 + sx))
        (bresLoopY sx sy dx dy n x y err) := by
  intro n
  induction n with
  | zero => intro x y err; exact List.chain'_singleton _
  | succ m ih =>
    intro x y err
    simp only [bresLoopY]
    split
    · rw [List.chain'_cons']
      refine ⟨?_, ih _ _ _⟩
      intro z hz
      rw [bresLoopY_head, Option.mem_def, Option.some.injEq] at hz
      subst hz
      exact ⟨rfl, Or.inr rfl⟩
    · rw [List.chain'_cons']
      refine ⟨?_, ih _ _ _⟩
      intro z hz
      rw [bresLoopY_head, Option.mem_def, Option.some.injEq] at hz
      subst hz
      exact ⟨rfl, Or.inl rfl⟩

/-- Invariant of the error accumulator in the major-y loop, mirroring the
major-x case. -/
theorem bresLoopY_getLast (sx sy : Int) (dx dy : Nat) (hdx : dx ≤ dy) :
    ∀ (n : Nat) (x y err : Int), 0 ≤ err → err < (dy : Int) →
      ∃ (k : Nat) (e : Int),
        (bresLoopY sx sy dx dy n x y err).getLast?
          = some (x + (k : Int) * sx, y + (n : Int) * sy)
        ∧ 0 ≤ e ∧ e < (dy : Int) ∧ err - (n : Int) * dx + (k : Int) * dy = e := by
  intro n
  induction n with
  | zero =>
    intro x y err h0 h1
    exact ⟨0, err, by simp [bresLoopY], h0, h1, by push_cast; ring⟩
  | succ m ih =>
    intro x y err h0 h1
    simp only [bresLoopY]
    by_cases hc : err - (dx : Int) < 0
    · rw [if_pos hc]
      have h0n : (0:Int) ≤ err - dx + dy := by omega
      have h1n : err - (dx:Int) + dy < (dy : Int) := by omega
      obtain ⟨k, e, hlast, he0, he1, heq⟩ := ih (x + sx) (y + sy) _ h0n h1n
      refine ⟨k + 1, e, ?_, he0, he1, ?_⟩
      · rw [getLast?_cons_of_ne_nil _ (bresLoopY_ne_nil _ _ _ _ _ _ _ _), hlast]
        congr 2 <;> (push_cast; ring)
      · push_cast at heq ⊢
        linear_combination heq
    · rw [if_neg hc]
      have h0n : (0:Int) ≤ err - dx := by omega
      have h1n : err - (dx:Int) < (dy : Int) := by omega
      obtain ⟨k, e, hlast, he0, he1, heq⟩ := ih x (y + sy) _ h0n h1n
      refine ⟨k, e, ?_, he0, he1, ?_⟩
      · rw [getLast?_cons_of_ne_nil _ (bresLoopY_ne_nil _ _ _ _ _ _ _ _), hlast]
        congr 2
        push_cast
        ring
      · push_cast at heq ⊢
        linear_combination heq

/-- With the initial error `dy / 2` and a full run of `dy` iterations the
major-y loop ends exactly `dx` minor steps away. -/
theorem bresLoopY_last_full (sx sy : Int) (dx dy : Nat) (hdx : dx ≤ dy)
    (hdy : 0 < dy) (x y : Int) :
    (bresLoopY sx sy dx dy dy x y ((dy / 2 : Nat) : Int)).getLast?
      = some (x + (dx : Int) * sx, y + (dy : Int) * sy) := by
  have h0 : (0:Int) ≤ ((dy / 2 : Nat) : Int) := by omega
  have h1 : ((dy / 2 : Nat) : Int) < (dy : Int) := by omega
  obtain ⟨k, e, hlast, he0, he1, heq⟩ :=
    bresLoopY_getLast sx sy dx dy hdx dy x y _ h0 h1
  have hmul : (dy:Int) * ((k:Int) - (dx:Int)) = e - ((dy / 2 : Nat) : Int) := by
    linear_combination heq
  have hk : (k : Int) = (dx : Int) := by
    rcases lt_trichotomy (k : Int) (dx : Int) with h | h | h
    · exfalso
      have h2 : (k:Int) - dx ≤ -1 := by omega
      have h3 : (dy:Int) * ((k:Int) - dx) ≤ (dy:Int) * (-1) :=
        mul_le_mul_of_nonneg_left h2 (by positivity)
      rw [hmul] at h3
      omega
    · exact h
    · exfalso
      have h2 : (1:Int) ≤ (k:Int) - dx := by omega
      have h3 : (dy:Int) * 1 ≤ (dy:Int) * ((k:Int) - dx) :=
        mul_le_mul_of_nonneg_left h2 (by positivity)
      rw [hmul] at h3
      omega
  rw [hlast, hk]

theorem draw_line_points_eq_X (x0 y0 x1 y1 : Int)
    (h : (y1 - y0).natAbs < (x1 - x0).natAbs) :
    draw_line_points x0 y0 x1 y1
      = bresLoopX (if x0 < x1 then 1 else -1) (if y0 < y1 then 1 else -1)
          (x1 - x0).natAbs (y1 - y0).natAbs (x1 - x0).natAbs x0 y0
          (((x1 - x0).natAbs / 2 : Nat) : Int) := by
  simp only [draw_line_points]
  rw [if_pos h]

theorem draw_line_points_eq_Y (x0 y0 x1 y1 : Int)
    (h : ¬ (y1 - y0).natAbs < (x1 - x0).natAbs) :
    draw_line_points x0 y0 x1 y1
      = bresLoopY (if x0 < x1 then 1 else -1) (if y0 < y1 then 1 else -1)
          (x1 - x0).natAbs (y1 - y0).natAbs (y1 - y0).natAbs x0 y0
          (((y1 - y0).natAbs / 2 : Nat) : Int) := by
  simp only [draw_line_points]
  rw [if_neg h]

/-- C8 (amended): for endpoints on the canvas the pixel sequence written by
draw_line is endpoint-inclusive with exactly one pixel per major-axis step —
max(dx,dy)+1 pixels, no duplicates, consecutive pixels adjacent (no gaps) —
but the rasterizer is not symmetric under endpoint reversal, as the
counterexample shows: reversing the endpoints can write a different set of
coordinates. -/
theorem draw_line_shape (x0 y0 x1 y1 : Int)
    (_hx0 : 0 ≤ x0 ∧ x0 < 64) (_hy0 : 0 ≤ y0 ∧ y0 < 64)
    (_hx1 : 0 ≤ x1 ∧ x1 < 64) (_hy1 : 0 ≤ y1 ∧ y1 < 64) :
    (draw_line_points x0 y0 x1 y1).length
        = max (x1 - x0).natAbs (y1 - y0).natAbs + 1
    ∧ (draw_line_points x0 y0 x1 y1).head? = some (x0, y0)
    ∧ (draw_line_points x0 y0 x1 y1).getLast? = some (x1, y1)
    ∧ (draw_line_points x0 y0 x1 y1).Nodup
    ∧ List.Chain' (fun p q : Int × Int =>
        (q.1 - p.1).natAbs ≤ 1 ∧ (q.2 - p.2).natAbs ≤ 1 ∧ q ≠ p)
        (draw_line_points x0 y0 x1 y1) := by
  have hsx : (if x0 < x1 then (1:Int) else -1) = 1
      ∨ (if x0 < x1 then (1:Int) else -1) = -1 := by
    split
    · exact Or.inl rfl
    · exact Or.inr rfl
  have hsy : (if y0 < y1 then (1:Int) else -1) = 1
      ∨ (if y0 < y1 then (1:Int) else -1) = -1 := by
    split
    · exact Or.inl rfl
    · exact Or.inr rfl
  have hxeq : x0 + ((x1 - x0).natAbs : Int) * (if x0 < x1 then (1:Int) else -1)
      = x1 := by
    split <;> rename_i h <;> (simp only [mul_one, mul_neg_one]; omega)
  have hyeq : y0 + ((y1 - y0).natAbs : Int) * (if y0 < y1 then (1:Int) else -1)
      = y1 := by
    split <;> rename_i h <;> (simp only [mul_one, mul_neg_one]; omega)
  by_cases hbr : (y1 - y0).natAbs < (x1 - x0).natAbs
  · rw [draw_line_points_eq_X x0 y0 x1 y1 hbr]
    refine ⟨?_, ?_, ?_, ?_, ?_⟩
    · rw [bresLoopX_length]
      omega
    · exact bresLoopX_head _ _ _ _ _ _ _ _
    · rw [bresLoopX_last_full _ _ _ _ hbr, hxeq, hyeq]
    · exact bresLoopX_nodup _ _ _ _ hsx _ _ _ _
    · refine (bresLoopX_chain _ _ _ _ _ _ _ _).imp ?_
      rintro ⟨a1, a2⟩ ⟨b1, b2⟩ ⟨h1, h2⟩
      refine ⟨?_, ?_, ?_⟩
      · rcases hsx with h | h <;> rw [h] at h1 <;> omega
      · rcases h2 with h2 | h2
        · omega
        · rcases hsy with h | h <;> rw [h] at h2 <;> omega
      · intro hq
        have hq1 : b1 = a1 := congrArg Prod.fst hq
        rcases hsx with h | h <;> rw [h] at h1 <;> omega
  · rw [draw_line_points_eq_Y x0 y0 x1 y1 hbr]
    by_cases hdy : (y1 - y0).natAbs = 0
    · have hx : x1 = x0 := by omega
      have hy : y1 = y0 := by omega
      subst hx
      subst hy
      simp only [sub_self, Int.natAbs_zero]
      refine ⟨?_, ?_, ?_, ?_, ?_⟩ <;> simp [bresLoopY]
    · have hpos : 0 < (y1 - y0).natAbs := Nat.pos_of_ne_zero hdy
      have hle : (x1 - x0).natAbs ≤ (y1 - y0).natAbs := by omega
      refine ⟨?_, ?_, ?_, ?_, ?_⟩
      · rw [bresLoopY_length]
        omega
      · exact bresLoopY_head _ _ _ _ _ _ _ _
      · rw [bresLoopY_last_full _ _ _ _ hle hpos, hxeq, hyeq]
      · exact bresLoopY_nodup _ _ _ _ hsy _ _ _ _
      · refine (bresLoopY_chain _ _ _ _ _ _ _ _).imp ?_
        rintro ⟨a1, a2⟩ ⟨b1, b2⟩ ⟨h1, h2⟩
        refine ⟨?_, ?_, ?_⟩
        · rcases h2 with h2 | h2
          · omega
          · rcases hsx with h | h <;> rw [h] at h2 <;> omega
        · rcases hsy with h | h <;> rw [h] at h1 <;> omega
        · intro hq
          have hq1 : b2 = a2 := congrArg Prod.snd hq
          rcases hsy with h | h <;> rw [h] at h1 <;> omega

/-- C8 witness, the spec scenario: the full diagonal writes exactly 64
pixels, first (0,0), last (63,63), without duplicates. -/
theorem draw_line_shape_witness :
    (draw_line_points 0 0 63 63).length = 64
    ∧ (draw_line_points 0 0 63 63).head? = some (0, 0)
    ∧ (draw_line_points 0 0 63 63).getLast? = some (63, 63)
    ∧ (draw_line_points 0 0 63 63).Nodup := by
  obtain ⟨h1, h2, h3, h4, -⟩ :=
    draw_line_shape 0 0 63 63 (by decide) (by decide) (by decide) (by decide)
  exact ⟨by simpa using h1, h2, h3, h4⟩

/-- C8 counterexample: both endpoints of the segment (0,0)-(4,1) lie on the
canvas, yet drawing it forward writes pixel (2,0) while drawing it backward
does not — the two directions write different coordinate sets, refuting
symmetry. -/
theorem draw_line_not_symmetric :
    ((2 : Int), (0 : Int)) ∈ draw_line_points 0 0 4 1
    ∧ ((2 : Int), (0 : Int)) ∉ draw_line_points 4 1 0 0 := by
  decide

/-! ## Reference semantics of the animation manager (C10)

In Python, `finalize_animation` executes `self.current_animation =
self.next_animation`, after which both attributes reference the *same* list
object; `add_frame` then appends through that shared object, so a later
message that neither restarts (offset 0 rebinds `next_animation` to a fresh
list) nor finalizes still grows the published animation in place.  Only two
references to animation lists ever exist (the two attributes), so the heap
is captured exactly by the two list values together with a flag recording
whether they are one object; every operation below updates this abstraction
exactly as the Python statements update the heap. -/

/-- State of `AnimationManager` with the aliasing between
`current_animation` and `next_animation` tracked explicitly:
`aliased = true` exactly when the two attributes reference the same list
object. -/
structure PySimState where
  current_animation : List (List Nat)
  next_animation : List (List Nat)
  aliased : Bool
  current_frame : Nat
  frame_delay : Int
  receiving_frames : Bool
deriving DecidableEq

/-- `AnimationManager.__init__`: two distinct empty list objects. -/
def PySimState.init : PySimState :=
  { current_animation := [], next_animation := [], aliased := false
    current_frame := 0, frame_delay := 100, receiving_frames := false }

/-- `start_new_animation`: `next_animation = []` rebinds the attribute to a
fresh list object, breaking any aliasing. -/
def py_start_new_animation (s : PySimState) : PySimState :=
  { s with receiving_frames := true, next_animation := [], aliased := false }

/-- `add_frame`: `next_animation.append(...)` mutates the referenced object;
when `current_animation` references the same object the published animation
grows identically. -/
def py_add_frame (s : PySimState) (frame_data : List Nat) : PySimState :=
  { s with next_animation := s.next_animation ++ [frame_data]
           current_animation :=
             if s.aliased then s.current_animation ++ [frame_data]
             else s.current_animation }

/-- `finalize_animation`: `current_animation = next_animation` makes the two
attributes reference one object. -/
def py_finalize_animation (s : PySimState) : PySimState :=
  { s with current_frame := 0, current_animation := s.next_animation
           aliased := true, receiving_frames := false }

/-- `Pixoo64Simulator._handle_send_gif` over the aliasing-aware state, with
the same control flow as `handleSendGif`. -/
def py_handleSendGif (s : PySimState) (m : GifMsg) : PySimState × GifResult :=
  let pic_offset := m.PicOffset.getD 0
  let pic_num := m.PicNum.getD 1
  let s := { s with frame_delay := m.PicSpeed.getD 100 }
  match m.PicData with
  | none => (s, GifResult.noData)
  | some frame_data =>
    if frame_data.length = 64 * 64 * 3 then
      let s := if pic_offset = 0 then py_start_new_animation s else s
      let s := py_add_frame s frame_data
      if pic_offset = pic_num - 1 then (py_finalize_animation s, GifResult.ok)
      else (s, GifResult.ok)
    else (s, GifResult.badPayload)

/-- C10 (amended): handling any Draw/SendHttpGif message overwrites the
global frame delay with PicSpeed (default 100) unconditionally — before
payload validation and whether or not the sequence completes — and a
non-finalizing message never changes the current frame index.  However,
because finalization leaves the published animation aliasing the
accumulator, a subsequent well-formed message with nonzero offset appends
its frame to the published animation as well, without any finalization; in
every other non-finalizing case (no aliasing, an offset-0 restart, a missing
or malformed payload) the published animation is untouched. -/
theorem py_delay_overwritten_always (s : PySimState) (m : GifMsg) :
    (py_handleSendGif s m).1.frame_delay = m.PicSpeed.getD 100
    ∧ ((∀ bytes, m.PicData = some bytes → bytes.length = 64 * 64 * 3 →
          m.PicOffset.getD 0 ≠ m.PicNum.getD 1 - 1) →
        (py_handleSendGif s m).1.current_frame = s.current_frame
        ∧ (∀ bytes, m.PicData = some bytes → bytes.length = 64 * 64 * 3 →
            m.PicOffset.getD 0 ≠ 0 → s.aliased = true →
            (py_handleSendGif s m).1.current_animation
              = s.current_animation ++ [bytes])
        ∧ (s.aliased = false →
            (py_handleSendGif s m).1.current_animation = s.current_animation)
        ∧ (m.PicOffset.getD 0 = 0 →
            (py_handleSendGif s m).1.current_animation = s.current_animation)
        ∧ (m.PicData = none →
            (py_handleSendGif s m).1.current_animation = s.current_animation)
        ∧ (∀ bytes, m.PicData = some bytes → bytes.length ≠ 64 * 64 * 3 →
            (py_handleSendGif s m).1.current_animation = s.current_animation)) := by
  constructor
  · cases hdata : m.PicData with
    | none => simp [py_handleSendGif, hdata]
    | some bytes =>
      simp only [py_handleSendGif, hdata]
      split_ifs <;>
        simp [py_start_new_animation, py_add_frame, py_finalize_animation]
  · intro hnf
    refine ⟨?_, ?_, ?_, ?_, ?_, ?_⟩
    · cases hdata : m.PicData with
      | none => simp [py_handleSendGif, hdata]
      | some bytes =>
        by_cases hlen : bytes.length = 64 * 64 * 3
        · have hf : m.PicOffset.getD 0 ≠ m.PicNum.getD 1 - 1 :=
            hnf bytes hdata hlen
          simp only [py_handleSendGif, hdata]
          rw [if_pos hlen, if_neg hf]
          split <;> simp [py_start_new_animation, py_add_frame]
        · simp [py_handleSendGif, hdata, hlen]
    · intro bytes hdata hlen hoff halias
      have hf : m.PicOffset.getD 0 ≠ m.PicNum.getD 1 - 1 := hnf bytes hdata hlen
      simp only [py_handleSendGif, hdata]
      rw [if_pos hlen, if_neg hoff, if_neg hf]
      simp [py_add_frame, halias]
    · intro halias
      cases hdata : m.PicData with
      | none => simp [py_handleSendGif, hdata]
      | some bytes =>
        by_cases hlen : bytes.length = 64 * 64 * 3
        · have hf : m.PicOffset.getD 0 ≠ m.PicNum.getD 1 - 1 :=
            hnf bytes hdata hlen
          simp only [py_handleSendGif, hdata]
          rw [if_pos hlen, if_neg hf]
          split <;> simp [py_start_new_animation, py_add_frame, halias]
        · simp [py_handleSendGif, hdata, hlen]
    · intro hoff
      cases hdata : m.PicData with
      | none => simp [py_handleSendGif, hdata]
      | some bytes =>
        by_cases hlen : bytes.length = 64 * 64 * 3
        · have hf : m.PicOffset.getD 0 ≠ m.PicNum.getD 1 - 1 :=
            hnf bytes hdata hlen
          simp only [py_handleSendGif, hdata]
          rw [if_pos hlen, if_pos hoff, if_neg hf]
          simp [py_start_new_animation, py_add_frame]
        · simp [py_handleSendGif, hdata, hlen]
    · intro hdata
      simp [py_handleSendGif, hdata]
    · intro bytes hdata hlen
      simp [py_handleSendGif, hdata, hlen]

/-- C10 witness: on an aliased state left by a finalization, a mid-sequence
frame (offset 1 of 9) rewrites the delay to 40, keeps the frame index, and
appends the frame to the published animation through the alias. -/
theorem py_delay_overwritten_always_witness :
    (py_handleSendGif
        { current_animation := [[5]], next_animation := [[5]], aliased := true,
          current_frame := 0, frame_delay := 100, receiving_frames := false }
        { PicSpeed := some 40, PicOffset := some 1, PicNum := some 9,
          PicData := some (testFrame 1) }).1.frame_delay = 40
    ∧ (py_handleSendGif
        { current_animation := [[5]], next_animation := [[5]], aliased := true,
          current_frame := 0, frame_delay := 100, receiving_frames := false }
        { PicSpeed := some 40, PicOffset := some 1, PicNum := some 9,
          PicData := some (testFrame 1) }).1.current_frame = 0
    ∧ (py_handleSendGif
        { current_animation := [[5]], next_animation := [[5]], aliased := true,
          current_frame := 0, frame_delay := 100, receiving_frames := false }
        { PicSpeed := some 40, PicOffset := some 1, PicNum := some 9,
          PicData := some (testFrame 1) }).1.current_animation
      = [[5], testFrame 1] := by
  have h := py_delay_overwritten_always
    { current_animation := [[5]], next_animation := [[5]], aliased := true,
      current_frame := 0, frame_delay := 100, receiving_frames := false }
    { PicSpeed := some 40, PicOffset := some 1, PicNum := some 9,
      PicData := some (testFrame 1) }
  have hnf : ∀ bytes : List Nat, some (testFrame 1) = some bytes →
      bytes.length = 64 * 64 * 3 → ((1:Int)) ≠ (9:Int) - 1 := by
    intro bytes _ _
    decide
  obtain ⟨hframe, happend, -, -, -, -⟩ := h.2 hnf
  refine ⟨by simpa using h.1, by simpa using hframe, ?_⟩
  have := happend (testFrame 1) rfl (testFrame_length 1) (by decide) rfl
  simpa using this

/-- C10 counterexample: after a completed single-frame sequence the
published animation aliases the accumulator, so the next well-formed message
— offset 1 of an announced total of 3, which neither restarts nor finalizes
(1 is neither 0 nor 3-1) — grows the published animation from one frame to
two while the receiving flag stays clear, refuting the claim that the
published animation is affected only on finalization. -/
theorem py_mid_sequence_grows_published :
    ((py_handleSendGif PySimState.init
        { PicID := some 7, PicNum := some 1, PicOffset := some 0,
          PicSpeed := some 100, PicData := some (testFrame 0) }).1.current_animation
      = [testFrame 0])
    ∧ ((py_handleSendGif PySimState.init
        { PicID := some 7, PicNum := some 1, PicOffset := some 0,
          PicSpeed := some 100, PicData := some (testFrame 0) }).1.receiving_frames
      = false)
    ∧ ((py_handleSendGif
          (py_handleSendGif PySimState.init
            { PicID := some 7, PicNum := some 1, PicOffset := some 0,
              PicSpeed := some 100, PicData := some (testFrame 0) }).1
          { PicID := some 7, PicNum := some 3, PicOffset := some 1,
            PicSpeed := some 100, PicData := some (testFrame 1) }).1.current_animation
      = [testFrame 0, testFrame 1])
    ∧ ((py_handleSendGif
          (py_handleSendGif PySimState.init
            { PicID := some 7, PicNum := some 1, PicOffset := some 0,
              PicSpeed := some 100, PicData := some (testFrame 0) }).1
          { PicID := some 7, PicNum := some 3, PicOffset := some 1,
            PicSpeed := some 100, PicData := some (testFrame 1) }).1.receiving_frames
      = false) := by
  refine ⟨?_, ?_, ?_, ?_⟩ <;>
    simp [py_handleSendGif, PySimState.init, testFrame_length,
      py_start_new_animation, py_add_frame, py_finalize_animation]
